import Mathlib

/-!
Verification of the in-memory time-series store of
`squad-csv-profile-to-graph` (`src/services/data-store.js`) and of the
`StatsComparer` function (`scripts/multi-file-chart.js`).

Modelling conventions (a shallow embedding of the JavaScript source):

* Timestamps are integer millisecond counts (`ℕ`), matching the data model in
  which every `Date` is its millisecond value; the JavaScript coercion `+time`
  is the identity on that value.  A JavaScript `undefined` time (reading the
  tail of an empty `timePoints` array) is `Option.none`; arithmetic
  comparisons against `undefined` produce `NaN` whose comparisons are all
  false, which the model reproduces case by case.
* Metric values are integers (`ℤ`); the claims under study only exercise
  integer-valued observations.  `StatsComparer` is modelled over `ℚ` because
  it divides.
* A JavaScript `Map` is an insertion-ordered association list
  (`List (String × β)`); `Map.set` keeps the position of an existing key and
  appends a new one.
* The `Float64Array`-backed numeric series keeps `times`/`values`/`count`
  with a growable capacity; only the first `count` slots are ever read and
  resizing copies them verbatim, so the model stores the live prefix as a
  list of `(time, value)` pairs and omits the unobservable capacity field.
* The two `heap-js` heaps per numeric key (stored in `this.heaps` under the
  derived names `key + '_min'` / `key + '_max'`, an injective encoding, hence
  two separate maps keyed by the plain key) are modelled by the list of
  values pushed into them; `peek()` of a min-heap (resp. max-heap) is the
  minimum (resp. maximum) of the pushed values and `undefined` on an empty
  heap — the library contract.
* Methods that throw (`#setInfiniteMapValue` arity check, `TypeError`s from
  indexing a `Map` as an array or calling `.set` on a non-`Map`) are
  modelled with `Except String`; the JavaScript paths that inevitably end in
  a thrown `TypeError` are mapped to `.error`.
-/

namespace SquadCsv

/-- Association-list lookup modelling JavaScript `Map.get`. -/
def alistGet {β : Type} : List (String × β) → String → Option β
  | [], _ => none
  | (k, v) :: rest, key => if k = key then some v else alistGet rest key

/-- Association-list update modelling JavaScript `Map.set`: an existing key
keeps its insertion position, a new key is appended. -/
def alistSet {β : Type} : List (String × β) → String → β → List (String × β)
  | [], key, v => [(key, v)]
  | (k, w) :: rest, key, v =>
    if k = key then (k, v) :: rest else (k, w) :: alistSet rest key v

/-- A stored chart point `{y, x, label}` as pushed by `#setNewCounterValue`.
`x` is `none` when the JavaScript value is `undefined` (empty time axis). -/
structure Pt where
  y : ℤ
  x : Option ℕ
  label : Option String
deriving DecidableEq, Repr

/-- The live `(time, value)` prefix of one optimized numeric counter
(`numericalCounters` entry: `times`/`values` up to `count`; capacity and the
unused tail of the `Float64Array`s are unobservable and omitted). -/
structure NumCounter where
  data : List (Option ℕ × ℤ)
deriving DecidableEq, Repr

/-- One `rateCounters` entry. -/
structure RateCtr where
  currentCount : ℤ
  lastSecond : ℤ
  lastFrameTime : ℕ
  data : List (ℕ × ℤ)
deriving DecidableEq, Repr

/-- A node of the nested-`Map` "infinite map": each key holds either a
terminal value or a deeper `Map`. `this.counters` uses `α = List Pt`
(arrays of points at the leaves), `this.infiniteMaps` uses `α = ℤ`. -/
inductive IEntry (α : Type) where
  | val : α → IEntry α
  | map : List (String × IEntry α) → IEntry α

/-- The `DataStore` instance state. -/
structure DataStore where
  resetFrequencySeconds : ℕ
  timePoints : List ℕ
  counters : List (String × IEntry (List Pt))
  vars : List (String × ℤ)
  infiniteMaps : List (String × IEntry ℤ)
  numericalCounters : List (String × NumCounter)
  minHeaps : List (String × List ℤ)
  maxHeaps : List (String × List ℤ)
  rateCounters : List (String × RateCtr)

/-- `new DataStore()` (default `resetFrequencySeconds = 1`). -/
def DataStore.init : DataStore :=
  { resetFrequencySeconds := 1, timePoints := [], counters := [], vars := [],
    infiniteMaps := [], numericalCounters := [], minHeaps := [], maxHeaps := [],
    rateCounters := [] }

/-- `addTimePoint(time)`: push `time` unless it equals the current tail
(`timePoints[timePoints.length-1] != time`; on an empty axis the tail is
`undefined`, which is `!=` any time); returns the argument. -/
def addTimePoint (s : DataStore) (time : ℕ) : DataStore × ℕ :=
  (if s.timePoints.getLast? ≠ some time
    then { s with timePoints := s.timePoints ++ [time] } else s, time)

/-- `getLastTimePoint()`: `undefined` on an empty axis. -/
def getLastTimePoint (s : DataStore) : Option ℕ :=
  s.timePoints.getLast?

/-- `getPreLastTimePoint()`. -/
def getPreLastTimePoint (s : DataStore) : Option ℕ :=
  s.timePoints.dropLast.getLast?

/-- Fold the `addTimePoint` mutation over a list of timestamps. -/
def applyTimePoints (s : DataStore) (ts : List ℕ) : DataStore :=
  ts.foldl (fun s t => (addTimePoint s t).1) s

/-- `#getInfiniteMapValue(target, ...keys)`: walk the nested maps; a missing
key returns `undefined` (`none`).  When the walk reaches a terminal value
with keys still remaining, JavaScript would throw a `TypeError`
(`step.has` on a non-`Map`); the model answers `none` there — every caller
below then reaches an `.error` through `setIM`, matching the thrown
exception. -/
def getIM {α : Type} : List (String × IEntry α) → List String → Option (IEntry α)
  | target, [] => some (.map target)
  | target, k :: rest =>
    match alistGet target k with
    | none => none
    | some e =>
      match rest with
      | [] => some e
      | _ :: _ =>
        match e with
        | .map m => getIM m rest
        | .val _ => none

/-- `#setInfiniteMapValue(target, ...keyVal)` after separating the trailing
value: fewer than 2 components (`keys = []`) throws the arity `Error`
before touching the map; otherwise intermediate levels are created for
missing keys, and descending through a key already bound to a terminal
value throws a `TypeError` (`.set`/`.has` on a non-`Map`). -/
def setIM {α : Type} : List (String × IEntry α) → List String → α →
    Except String (List (String × IEntry α))
  | _, [], _ => .error "Cannot create an infinite map with less than 2 parameters"
  | target, [k], v => .ok (alistSet target k (.val v))
  | target, k :: k' :: rest, v =>
    match alistGet target k with
    | some (.map m) => (setIM m (k' :: rest) v).map (fun m' => alistSet target k (.map m'))
    | some (.val _) => .error "TypeError: step is not a Map"
    | none => (setIM [] (k' :: rest) v).map (fun m' => alistSet target k (.map m'))

/-- Replace the terminal value found at `keys` (the in-place mutation of an
array fetched with `#getInfiniteMapValue`: the nested maps still hold the
same array object, now with new contents). -/
def updateIM {α : Type} : List (String × IEntry α) → List String → α →
    List (String × IEntry α)
  | m, [], _ => m
  | m, [k], v => alistSet m k (.val v)
  | m, k :: k' :: rest, v =>
    match alistGet m k with
    | some (.map sub) => alistSet m k (.map (updateIM sub (k' :: rest) v))
    | _ => m

/-- Public `setInfiniteMapValue(...keyVal)` targeting `this.infiniteMaps`. -/
def setInfiniteMapValue (s : DataStore) (keys : List String) (v : ℤ) :
    Except String DataStore :=
  (setIM s.infiniteMaps keys v).map (fun m => { s with infiniteMaps := m })

/-- Public `getInfiniteMapValue(...keys)`. -/
def getInfiniteMapValue (s : DataStore) (keys : List String) : Option (IEntry ℤ) :=
  getIM s.infiniteMaps keys

/-- `const timeValue = time !== null ? +time : this.getLastTimePoint()`. -/
def jsTimeValue (s : DataStore) (time : Option ℕ) : Option ℕ :=
  match time with
  | some t => some t
  | none => getLastTimePoint s

/-- `#setOptimizedCounterValue(key, value, time, deduplicateData)`: the pure
numeric route.  On first use it creates the typed-array series and the two
heaps; it never touches the time axis — a provided (non-`null`) `time` is
used directly as the stored x, otherwise the current axis tail (possibly
`undefined`) is used.  With `deduplicateData` and a non-empty series whose
last value equals `value`, the append is skipped and a point carrying the
incoming `timeValue` is returned. -/
def setOptimizedCounterValue (s : DataStore) (key : String) (value : ℤ)
    (time : Option ℕ) (deduplicateData : Bool) : DataStore × Pt :=
  let s :=
    if (alistGet s.numericalCounters key).isNone then
      { s with numericalCounters := alistSet s.numericalCounters key ⟨[]⟩,
               minHeaps := alistSet s.minHeaps key [],
               maxHeaps := alistSet s.maxHeaps key [] }
    else s
  let c := (alistGet s.numericalCounters key).getD ⟨[]⟩
  let timeValue : Option ℕ := jsTimeValue s time
  if deduplicateData ∧ c.data ≠ [] ∧ (c.data.getLast?.map Prod.snd) = some value then
    (s, ⟨value, timeValue, none⟩)
  else
    ({ s with
        numericalCounters := alistSet s.numericalCounters key ⟨c.data ++ [(timeValue, value)]⟩,
        minHeaps := alistSet s.minHeaps key ((alistGet s.minHeaps key).getD [] ++ [value]),
        maxHeaps := alistSet s.maxHeaps key ((alistGet s.maxHeaps key).getD [] ++ [value]) },
      ⟨value, timeValue, none⟩)

/-- `#setNewCounterValue(oldCounter, value, label, time, skipDuplication,
memorySaving)`: the array-of-points route.  A provided `time` with
`+time > 0` is first registered on the axis via `addTimePoint` and becomes
the x; otherwise the current axis tail is used.  With `skipDuplication`
false, a duplicate point holding the previous value (`0` for an empty
array) is pushed before the new point.  Returns the new state, the new
array contents and the returned point (`memorySaving` is `false` at every
call site; its branch returns the untouched last point). -/
def setNewCounterValuePriv (s : DataStore) (oldCounter : List Pt) (value : ℤ)
    (label : Option String) (time : Option ℕ) (skipDuplication : Bool)
    (memorySaving : Bool) : DataStore × List Pt × Pt :=
  let sx : DataStore × Option ℕ :=
    match time with
    | some t => if 0 < t then ((addTimePoint s t).1, some t) else (s, getLastTimePoint s)
    | none => (s, getLastTimePoint s)
  let s := sx.1
  let xRef := sx.2
  let newObj : Pt := ⟨value, xRef, label⟩
  let prevValue : ℤ := ((oldCounter.getLast?.map Pt.y).getD 0)
  if memorySaving ∧ prevValue = value ∧ skipDuplication then
    (s, oldCounter, (oldCounter.getLast?).getD newObj)
  else
    let withDup :=
      if skipDuplication then oldCounter else oldCounter ++ [⟨prevValue, xRef, label⟩]
    (s, withDup ++ [newObj], newObj)

/-- `setNewCounterValue(key, value, label, time, skipDuplication,
deduplicateData)`: numeric values without a label go to the optimized
storage, labelled values to the `counters` array for `key` (created empty
when absent).  If a composite write previously left a nested `Map` at
`key`, JavaScript would crash indexing it as an array — not reachable in
any claim; the model reads `[]` there. -/
def setNewCounterValue (s : DataStore) (key : String) (value : ℤ)
    (label : Option String) (time : Option ℕ) (skipDuplication : Bool)
    (deduplicateData : Bool) : DataStore × Pt :=
  match label with
  | none => setOptimizedCounterValue s key value time deduplicateData
  | some _ =>
    let s :=
      if (alistGet s.counters key).isNone then
        { s with counters := alistSet s.counters key (.val []) }
      else s
    let oldCounter : List Pt :=
      match alistGet s.counters key with
      | some (.val l) => l
      | _ => []
    let r := setNewCounterValuePriv s oldCounter value label time skipDuplication false
    ({ r.1 with counters := alistSet r.1.counters key (.val r.2.1) }, r.2.2)

/-- The value JavaScript reads in `incrementCounter`:
`+(counter?.length > 0 ? counter[counter.length-1].y : 0)` over
`this.counters.get(key)` — only the array storage is consulted; an absent
key, an empty array, or a nested `Map` (whose `.length` is `undefined`)
all read `0`. -/
def lastCountersY (s : DataStore) (key : String) : ℤ :=
  match alistGet s.counters key with
  | some (.val ps) => ((ps.getLast?.map Pt.y).getD 0)
  | _ => 0

/-- `incrementCounter(key, incrementer, time)`: reads the last `counters`
array value (see `lastCountersY`) and stores `last + incrementer` through
`setNewCounterValue` with no label. -/
def incrementCounter (s : DataStore) (key : String) (incrementer : ℤ)
    (time : Option ℕ) : DataStore × Pt :=
  setNewCounterValue s key (lastCountersY s key + incrementer) none time true false

/-- `incrementCounterLast(...keys, incrementer)`: adds `incrementer` in
place to the last point of the array found at the key path and returns
`counter[last].y + incrementer` computed *after* the mutation (the stored
value plus one more increment).  A missing path, a nested `Map`, or an
empty array throws a `TypeError`. -/
def incrementCounterLast (s : DataStore) (keys : List String) (incrementer : ℤ) :
    Except String (DataStore × ℤ) :=
  match getIM s.counters keys with
  | some (.val ps) =>
    match ps.getLast? with
    | some lastP =>
      let ps' := ps.dropLast ++ [{ lastP with y := lastP.y + incrementer }]
      .ok ({ s with counters := updateIM s.counters keys ps' },
           lastP.y + incrementer + incrementer)
    | none => .error "TypeError: cannot read y of undefined"
  | _ => .error "TypeError: cannot read y of undefined"

/-- `setNewFrequencyCounterValue({keys, value, time, skipDuplication,
label})`: ensures an array exists at the key path (creating it through
`#setInfiniteMapValue`, whose arity check and `Map`-shape errors
propagate), then appends through `#setNewCounterValue` and stores the
mutated array back at the path. -/
def setNewFrequencyCounterValue (s : DataStore) (keys : List String) (value : ℤ)
    (time : Option ℕ) (skipDuplication : Bool) (label : Option String) :
    Except String (DataStore × Pt) := do
  let s ←
    match getIM s.counters keys with
    | none => (setIM s.counters keys []).map (fun m => { s with counters := m })
    | some _ => pure s
  match getIM s.counters keys with
  | some (.val l) =>
    let r := setNewCounterValuePriv s l value label time skipDuplication false
    .ok ({ r.1 with counters := updateIM r.1.counters keys r.2.1 }, r.2.2)
  | _ => .error "TypeError: oldCounter is not an array"

/-- `resetFrequencyCounter(...keys, timeNow)`: if the counter exists and is
non-empty, first push a zero point dated at the counter's stored last
timestamp (`skipDuplication = true`), then push a fresh zero point at
`timeNow` (`skipDuplication = false`, which also inserts the duplicate of
the previous value — another zero). -/
def resetFrequencyCounter (s : DataStore) (keys : List String) (timeNow : ℕ) :
    Except String DataStore := do
  let s ←
    match getIM s.counters keys with
    | some (.val (p :: ps)) =>
      (setNewFrequencyCounterValue s keys 0 ((p :: ps).getLast (List.cons_ne_nil p ps)).x
        true none).map Prod.fst
    | _ => pure s
  (setNewFrequencyCounterValue s keys 0 (some timeNow) false none).map Prod.fst

/-- The gap test `+timeNow - +counter[last].x > resetFrequencySeconds * 1000`:
false whenever either operand is `undefined` (the subtraction is `NaN` and
every `NaN` comparison is false). -/
def gapExceeds (timeNow : Option ℕ) (x : Option ℕ) (windowMs : ℕ) : Bool :=
  match timeNow, x with
  | some a, some b => decide ((a : ℤ) - (b : ℤ) > (windowMs : ℤ))
  | _, _ => false

/-- `incrementFrequencyCounter(...keys, time?, incrementer)`: reset when the
counter is absent or the gap since its last point exceeds the window, then
increment the last point in place via `incrementCounterLast`.  With an
absent counter and an `undefined` `timeNow`, JavaScript passes `undefined`
into the key path and inevitably throws; an existing counter that is a
nested `Map` or an empty array throws reading `.x`. -/
def incrementFrequencyCounter (s : DataStore) (keys : List String)
    (time : Option ℕ) (incrementer : ℤ) : Except String (DataStore × ℤ) := do
  let timeNow : Option ℕ :=
    match time with
    | some t => some t
    | none => getLastTimePoint s
  let needReset ←
    match getIM s.counters keys with
    | none => pure true
    | some (.val (p :: ps)) =>
      pure (gapExceeds timeNow ((p :: ps).getLast (List.cons_ne_nil p ps)).x
        (s.resetFrequencySeconds * 1000))
    | some (.val []) => .error "TypeError: cannot read x of undefined"
    | some (.map _) => .error "TypeError: cannot read x of undefined"
  let s ←
    if needReset then
      match timeNow with
      | some tn => resetFrequencyCounter s keys tn
      | none => .error "TypeError: undefined key component"
    else pure s
  incrementCounterLast s keys incrementer

/-- `Math.floor(timeValue / 1000)` for a non-negative integer time. -/
def jsSecond (t : ℕ) : ℤ := ((t / 1000 : ℕ) : ℤ)

/-- `incrementRateCounter(key, incrementer, time)`: lazily create the
counter (`currentCount 0`, `lastSecond -1`, `lastFrameTime 0`), register
`time` on the axis, and bucket by wall-clock second: crossing into a new
second commits one point `(lastFrameTime, currentCount)` for the previous
bucket (skipped on first initialization when `lastSecond < 0`) and restarts
the count at `incrementer`; otherwise the count just grows.
`lastFrameTime` is always updated to the incoming time.  Returns the
in-progress count. -/
def incrementRateCounter (s : DataStore) (key : String) (incrementer : ℤ)
    (time : ℕ) : DataStore × ℤ :=
  let s :=
    if (alistGet s.rateCounters key).isNone then
      { s with rateCounters :=
          alistSet s.rateCounters key ⟨0, -1, 0, []⟩ }
    else s
  let c := (alistGet s.rateCounters key).getD ⟨0, -1, 0, []⟩
  let s := (addTimePoint s time).1
  let timeValue := time
  let currentSecond := jsSecond timeValue
  let c :=
    if currentSecond > c.lastSecond then
      { c with
          data := if 0 ≤ c.lastSecond
            then c.data ++ [(c.lastFrameTime, c.currentCount)] else c.data,
          currentCount := incrementer,
          lastSecond := currentSecond }
    else
      { c with currentCount := c.currentCount + incrementer }
  let c := { c with lastFrameTime := timeValue }
  ({ s with rateCounters := alistSet s.rateCounters key c }, c.currentCount)

/-- `getRateCounterData(key)`: a copy of the committed points; when the
in-progress count is positive and the counter is past initialization, one
trailing point `(+getLastTimePoint(), currentCount)` is appended to the
copy. -/
def getRateCounterData (s : DataStore) (key : String) : List Pt :=
  match alistGet s.rateCounters key with
  | none => []
  | some c =>
    let data := c.data.map (fun p => (⟨p.2, some p.1, none⟩ : Pt))
    if 0 < c.currentCount ∧ 0 ≤ c.lastSecond then
      data ++ [⟨c.currentCount, getLastTimePoint s, none⟩]
    else data

/-- `isRateCounter(key)`. -/
def isRateCounter (s : DataStore) (key : String) : Bool :=
  (alistGet s.rateCounters key).isSome

/-- `getCounterData(key)` for a single key: rate counters first, then the
optimized numeric storage (materialized as `{x, y}` points), then the
`counters` array (`[]` when absent; a nested `Map` left by a composite
write is returned as-is in JavaScript and is not exercised here). -/
def getCounterData (s : DataStore) (key : String) : List Pt :=
  if (alistGet s.rateCounters key).isSome then
    getRateCounterData s key
  else if (alistGet s.numericalCounters key).isSome then
    ((alistGet s.numericalCounters key).getD ⟨[]⟩).data.map
      (fun p => (⟨p.2, p.1, none⟩ : Pt))
  else
    match alistGet s.counters key with
    | some (.val ps) => ps
    | _ => []

/-- The JavaScript comparison `data[data.length-1].x < maxTime`: false when
the stored x is `undefined` (`NaN` comparison). -/
def xBefore (x : Option ℕ) (maxTime : ℕ) : Bool :=
  match x with
  | some a => decide (a < maxTime)
  | none => false

/-- `getCounterDataExtended(key, maxTime)`: `getCounterData` plus one extra
point `(maxTime, lastValue)` pushed onto a copy when the last stored time
is strictly before `maxTime`; an empty series is returned as-is. -/
def getCounterDataExtended (s : DataStore) (key : String) (maxTime : ℕ) : List Pt :=
  let data := getCounterData s key
  match data.getLast? with
  | none => data
  | some lastP =>
    if xBefore lastP.x maxTime then data ++ [⟨lastP.y, some maxTime, none⟩] else data

/-- `getCounterYValues(key)`: the y-projection of the same selection order
as `getCounterData`. -/
def getCounterYValues (s : DataStore) (key : String) : List ℤ :=
  if (alistGet s.rateCounters key).isSome then
    (getRateCounterData s key).map Pt.y
  else if (alistGet s.numericalCounters key).isSome then
    ((alistGet s.numericalCounters key).getD ⟨[]⟩).data.map Prod.snd
  else
    (match alistGet s.counters key with
      | some (.val ps) => ps
      | _ => []).map Pt.y

/-- Minimum of the values pushed into a heap (`peek()` of the min-heap),
`none` for an empty heap. -/
def listMin? : List ℤ → Option ℤ
  | [] => none
  | v :: vs => some (vs.foldl min v)

/-- Maximum of the values pushed into a heap (`peek()` of the max-heap). -/
def listMax? : List ℤ → Option ℤ
  | [] => none
  | v :: vs => some (vs.foldl max v)

/-- `getMinValue(key)`: `peek()` of the heap stored under `key + '_min'`,
`undefined` when that heap does not exist. -/
def getMinValue (s : DataStore) (key : String) : Option ℤ :=
  (alistGet s.minHeaps key).bind listMin?

/-- `getMaxValue(key)`: `peek()` of the heap stored under `key + '_max'`. -/
def getMaxValue (s : DataStore) (key : String) : Option ℤ :=
  (alistGet s.maxHeaps key).bind listMax?

/-- `getAverageValue(key)`: sum of the stored values over their count for an
optimized numeric key, `undefined` otherwise (the `0 / 0` of an empty
series is unreachable: a series is created by an append). -/
def getAverageValue (s : DataStore) (key : String) : Option ℚ :=
  match alistGet s.numericalCounters key with
  | none => none
  | some c => some ((((c.data.map Prod.snd).sum : ℤ) : ℚ) / (c.data.length : ℚ))

/-- Per-key output of `StatsComparer` (the constant `numToStringSymbol`
function field is formatting, not data, and is omitted). -/
structure VariationResult where
  variation : ℚ
  variationPerc : ℚ
deriving DecidableEq, Repr

/-- `StatsComparer(reference, candidate)` from
`scripts/multi-file-chart.js`: for every key of `reference`, `null` when
`candidate[key]` is falsy (absent — or `0`, which is also falsy), otherwise
the signed difference and its percentage of the reference value. -/
def StatsComparer (reference candidate : List (String × ℚ)) :
    List (String × Option VariationResult) :=
  reference.map (fun e =>
    let key := e.1
    let refValue := e.2
    match alistGet candidate key with
    | none => (key, none)
    | some candValue =>
      if candValue = 0 then (key, none)
      else (key, some ⟨candValue - refValue, (candValue - refValue) * 100 / refValue⟩))

/-- `getCounterData` in state-passing form: the result list is built in
fresh arrays (or is a direct alias that the method never writes through),
so the store is returned unchanged. -/
def getCounterDataS (s : DataStore) (key : String) : List Pt × DataStore :=
  (getCounterData s key, s)

/-- `getRateCounterData` in state-passing form: the trailing in-progress
point is pushed onto `[...counter.data]`, a copy, never onto the stored
committed array. -/
def getRateCounterDataS (s : DataStore) (key : String) : List Pt × DataStore :=
  (getRateCounterData s key, s)

/-- `getCounterDataExtended` in state-passing form: the extension point is
pushed onto `[...data]`, a copy. -/
def getCounterDataExtendedS (s : DataStore) (key : String) (maxTime : ℕ) :
    List Pt × DataStore :=
  (getCounterDataExtended s key maxTime, s)

/-- `getCounterYValues` in state-passing form. -/
def getCounterYValuesS (s : DataStore) (key : String) : List ℤ × DataStore :=
  (getCounterYValues s key, s)

/-- `getMinValue` in state-passing form (`peek()` does not pop). -/
def getMinValueS (s : DataStore) (key : String) : Option ℤ × DataStore :=
  (getMinValue s key, s)

/-- `getMaxValue` in state-passing form. -/
def getMaxValueS (s : DataStore) (key : String) : Option ℤ × DataStore :=
  (getMaxValue s key, s)

/-- `getAverageValue` in state-passing form. -/
def getAverageValueS (s : DataStore) (key : String) : Option ℚ × DataStore :=
  (getAverageValue s key, s)

theorem alistGet_alistSet_self {β : Type} (m : List (String × β)) (k : String) (v : β) :
    alistGet (alistSet m k v) k = some v := by
  induction m with
  | nil => simp [alistGet, alistSet]
  | cons hd tl ih =>
    obtain ⟨k₀, w⟩ := hd
    by_cases h : k₀ = k <;> simp [alistGet, alistSet, h, ih]

theorem alistGet_alistSet_ne {β : Type} (m : List (String × β)) (k k' : String) (v : β)
    (h : k ≠ k') : alistGet (alistSet m k v) k' = alistGet m k' := by
  induction m with
  | nil => simp [alistGet, alistSet, h]
  | cons hd tl ih =>
    obtain ⟨k₀, w⟩ := hd
    by_cases hk : k₀ = k
    · subst hk; simp [alistGet, alistSet, h]
    · simp [alistGet, alistSet, hk, ih]

theorem alistGet_isSome_alistSet {β : Type} (m : List (String × β)) (k k' : String) (v : β)
    (h : (alistGet m k').isSome) : (alistGet (alistSet m k v) k').isSome := by
  by_cases hk : k = k'
  · subst hk; simp [alistGet_alistSet_self]
  · rwa [alistGet_alistSet_ne m k k' v hk]

@[simp] theorem addTimePoint_counters (s : DataStore) (t : ℕ) :
    ((addTimePoint s t).1).counters = s.counters := by
  unfold addTimePoint; split <;> rfl

@[simp] theorem addTimePoint_numericalCounters (s : DataStore) (t : ℕ) :
    ((addTimePoint s t).1).numericalCounters = s.numericalCounters := by
  unfold addTimePoint; split <;> rfl

@[simp] theorem addTimePoint_minHeaps (s : DataStore) (t : ℕ) :
    ((addTimePoint s t).1).minHeaps = s.minHeaps := by
  unfold addTimePoint; split <;> rfl

@[simp] theorem addTimePoint_maxHeaps (s : DataStore) (t : ℕ) :
    ((addTimePoint s t).1).maxHeaps = s.maxHeaps := by
  unfold addTimePoint; split <;> rfl

@[simp] theorem addTimePoint_rateCounters (s : DataStore) (t : ℕ) :
    ((addTimePoint s t).1).rateCounters = s.rateCounters := by
  unfold addTimePoint; split <;> rfl

@[simp] theorem addTimePoint_resetFrequencySeconds (s : DataStore) (t : ℕ) :
    ((addTimePoint s t).1).resetFrequencySeconds = s.resetFrequencySeconds := by
  unfold addTimePoint; split <;> rfl

@[simp] theorem addTimePoint_snd (s : DataStore) (t : ℕ) : (addTimePoint s t).2 = t := rfl

/-- After `addTimePoint` the axis tail is the accepted timestamp. -/
theorem addTimePoint_getLast (s : DataStore) (t : ℕ) :
    ((addTimePoint s t).1).timePoints.getLast? = some t := by
  unfold addTimePoint
  split
  · simp
  · next h => simpa using not_ne_iff.mp h

/-- The time axis after `addTimePoint` stays a strictly increasing chain when
the new timestamp is at least the previous tail. -/
theorem addTimePoint_chain (s : DataStore) (t : ℕ)
    (hs : List.Chain' (· < ·) s.timePoints)
    (hle : ∀ l, s.timePoints.getLast? = some l → l ≤ t) :
    List.Chain' (· < ·) ((addTimePoint s t).1).timePoints := by
  unfold addTimePoint
  split
  · next hne =>
    rw [List.chain'_append]
    refine ⟨hs, List.chain'_singleton t, ?_⟩
    intro x hx y hy
    simp only [List.head?_cons, Option.mem_def, Option.some.injEq] at hy
    subst hy
    have h1 := hle x hx
    have h2 : x ≠ t := by
      intro h; exact hne (by simpa [h] using hx)
    omega
  · exact hs

/-- Folding `addTimePoint` over a non-decreasing batch of timestamps keeps
the axis a strictly increasing chain, provided the batch starts at or after
the current tail. -/
theorem applyTimePoints_chain (ts : List ℕ) :
    ∀ (s : DataStore), List.Chain' (· < ·) s.timePoints →
    List.Chain' (· ≤ ·) ts →
    (∀ l, s.timePoints.getLast? = some l → ∀ t₀, ts.head? = some t₀ → l ≤ t₀) →
    List.Chain' (· < ·) (applyTimePoints s ts).timePoints := by
  induction ts with
  | nil => intro s hs _ _; exact hs
  | cons t rest ih =>
    intro s hs hts hconn
    have hstep : List.Chain' (· < ·) ((addTimePoint s t).1).timePoints :=
      addTimePoint_chain s t hs (fun l hl => hconn l hl t rfl)
    have htail : ((addTimePoint s t).1).timePoints.getLast? = some t :=
      addTimePoint_getLast s t
    have : applyTimePoints s (t :: rest) = applyTimePoints (addTimePoint s t).1 rest := rfl
    rw [this]
    refine ih (addTimePoint s t).1 hstep hts.tail ?_
    intro l hl t₀ ht₀
    rw [htail] at hl
    obtain rfl : t = l := by simpa using hl
    rcases rest with _ | ⟨r, rest'⟩
    · simp at ht₀
    · obtain rfl : r = t₀ := by simpa using ht₀
      exact (List.chain'_cons.mp hts).1

/-- C1 — For every sequence of `addTimePoint` calls supplied in
non-decreasing order (starting from a fresh store), the resulting
`timePoints` axis is non-decreasing and contains no two consecutive equal
elements; appending a timestamp equal to the current tail is a no-op (the
whole store is unchanged) and the call returns the accepted timestamp. -/
theorem addTimePoint_axis_nondecreasing_nodup (ts : List ℕ)
    (hts : List.Chain' (· ≤ ·) ts) :
    (List.Chain' (· ≤ ·) (applyTimePoints DataStore.init ts).timePoints ∧
      List.Chain' (· ≠ ·) (applyTimePoints DataStore.init ts).timePoints) ∧
    (∀ (s : DataStore) (t : ℕ), getLastTimePoint s = some t →
      addTimePoint s t = (s, t)) := by
  constructor
  · have hchain : List.Chain' (· < ·) (applyTimePoints DataStore.init ts).timePoints := by
      refine applyTimePoints_chain ts DataStore.init ?_ hts ?_
      · simp [DataStore.init]
      · intro l hl; simp [DataStore.init] at hl
    exact ⟨hchain.imp (fun _ _ h => le_of_lt h), hchain.imp (fun _ _ h => ne_of_lt h)⟩
  · intro s t hlast
    unfold addTimePoint
    rw [if_neg]
    simpa [getLastTimePoint] using hlast

/-- Witness for C1 at the concrete batch `[1, 1, 3]` and a concrete no-op
call. -/
theorem addTimePoint_axis_nondecreasing_nodup_witness :
    List.Chain' (· ≤ ·) ([1, 1, 3] : List ℕ) ∧
    (List.Chain' (· ≤ ·) (applyTimePoints DataStore.init [1, 1, 3]).timePoints ∧
      List.Chain' (· ≠ ·) (applyTimePoints DataStore.init [1, 1, 3]).timePoints) ∧
    addTimePoint (applyTimePoints DataStore.init [1, 1, 3]) 3 =
      (applyTimePoints DataStore.init [1, 1, 3], 3) := by
  have hts : List.Chain' (· ≤ ·) ([1, 1, 3] : List ℕ) := by
    simp [List.chain'_cons]
  have h := addTimePoint_axis_nondecreasing_nodup [1, 1, 3] hts
  exact ⟨hts, h.1, h.2 _ 3 (by rfl)⟩

/-- The claimed rate-counter scenario: increments of 1 at t = 100, 300, 900
(second 0) and then t = 1100 (second 1), starting from a fresh store. -/
def rateS1 : DataStore := (incrementRateCounter DataStore.init "TPS" 1 100).1

def rateS2 : DataStore := (incrementRateCounter rateS1 "TPS" 1 300).1

def rateS3 : DataStore := (incrementRateCounter rateS2 "TPS" 1 900).1

def rateS4 : DataStore := (incrementRateCounter rateS3 "TPS" 1 1100).1

/-- C2 — A rate counter commits a point only when an increment lands in a
strictly later second-bucket, and the committed point is
`(lastFrameTime of the previous bucket, its final count)`; a same-bucket
increment leaves the committed data untouched.  Concretely, increments of 1
at t = 100, 300, 900, 1100 commit exactly `(900, 3)` for second 0, and a
query during second 1 returns the committed point plus the trailing
in-progress point `(1100, 1)`. -/
theorem rateCounter_commit_spec (s : DataStore) (key : String) (inc : ℤ) (t : ℕ)
    (c : RateCtr) (hc : alistGet s.rateCounters key = some c) :
    ((jsSecond t ≤ c.lastSecond →
      alistGet ((incrementRateCounter s key inc t).1).rateCounters key =
        some { c with currentCount := c.currentCount + inc, lastFrameTime := t }) ∧
     (c.lastSecond < jsSecond t → 0 ≤ c.lastSecond →
      alistGet ((incrementRateCounter s key inc t).1).rateCounters key =
        some { currentCount := inc, lastSecond := jsSecond t, lastFrameTime := t,
               data := c.data ++ [(c.lastFrameTime, c.currentCount)] })) ∧
    (alistGet rateS4.rateCounters "TPS" = some ⟨1, 1, 1100, [(900, 3)]⟩ ∧
      getRateCounterData rateS4 "TPS" =
        [⟨3, some 900, none⟩, ⟨1, some 1100, none⟩]) := by
  refine ⟨⟨?_, ?_⟩, by decide, by decide⟩
  · intro hle
    unfold incrementRateCounter
    simp only [hc, Option.isNone_some, Bool.false_eq_true, if_false,
      Option.getD_some, addTimePoint_rateCounters]
    rw [if_neg (by omega)]
    exact alistGet_alistSet_self _ _ _
  · intro hlt hinit
    unfold incrementRateCounter
    simp only [hc, Option.isNone_some, Bool.false_eq_true, if_false,
      Option.getD_some, addTimePoint_rateCounters]
    rw [if_pos (by omega), if_pos hinit]
    exact alistGet_alistSet_self _ _ _

/-- Witness for C2: the two bucketing rules applied at the concrete fourth
increment (crossing from second 0 into second 1) and at the concrete third
increment (staying in second 0). -/
theorem rateCounter_commit_spec_witness :
    (alistGet rateS3.rateCounters "TPS" = some ⟨3, 0, 900, []⟩ ∧
      (0 : ℤ) < jsSecond 1100 ∧ (0 : ℤ) ≤ 0 ∧
      alistGet ((incrementRateCounter rateS3 "TPS" 1 1100).1).rateCounters "TPS" =
        some { currentCount := 1, lastSecond := jsSecond 1100, lastFrameTime := 1100,
               data := [(900, 3)] }) ∧
    (alistGet rateS2.rateCounters "TPS" = some ⟨2, 0, 300, []⟩ ∧
      jsSecond 900 ≤ (0 : ℤ) ∧
      alistGet ((incrementRateCounter rateS2 "TPS" 1 900).1).rateCounters "TPS" =
        some { currentCount := 2 + 1, lastSecond := (0 : ℤ), lastFrameTime := 900,
               data := ([] : List (ℕ × ℤ)) }) := by
  refine ⟨⟨by decide, by decide, by decide, ?_⟩, by decide, by decide, ?_⟩
  · exact ((rateCounter_commit_spec rateS3 "TPS" 1 1100 ⟨3, 0, 900, []⟩
      (by decide)).1.2 (by decide) (by decide))
  · exact ((rateCounter_commit_spec rateS2 "TPS" 1 900 ⟨2, 0, 300, []⟩
      (by decide)).1.1 (by decide))

/-- Replacing the array found at a key path leaves it retrievable there. -/
theorem getIM_updateIM_val {α : Type} (keys : List String) :
    ∀ (m : List (String × IEntry α)) (l l' : α),
      getIM m keys = some (.val l) →
      getIM (updateIM m keys l') keys = some (.val l') := by
  induction keys with
  | nil => intro m l l' h; simp [getIM] at h
  | cons k rest ih =>
    intro m l l' h
    cases rest with
    | nil =>
      rw [getIM] at h
      cases hg : alistGet m k with
      | none => rw [hg] at h; simp at h
      | some e =>
        rw [updateIM, getIM, alistGet_alistSet_self]
    | cons k' rest' =>
      rw [getIM] at h
      cases hg : alistGet m k with
      | none => rw [hg] at h; simp at h
      | some e =>
        rw [hg] at h
        cases e with
        | val v => simp at h
        | map sub =>
          simp only at h
          rw [updateIM, hg, getIM, alistGet_alistSet_self]
          exact ih sub l l' h

/-- `#setNewCounterValue` when the provided time is a positive timestamp:
the time is registered on the axis and becomes the stored x. -/
theorem setNewCounterValuePriv_pos_time (s : DataStore) (oldC : List Pt)
    (value : ℤ) (label : Option String) (t : ℕ) (skipDup : Bool) (ht : 0 < t) :
    setNewCounterValuePriv s oldC value label (some t) skipDup false =
      ((addTimePoint s t).1,
        (if skipDup then oldC
          else oldC ++ [⟨(oldC.getLast?.map Pt.y).getD 0, some t, label⟩]) ++
          [⟨value, some t, label⟩],
        ⟨value, some t, label⟩) := by
  unfold setNewCounterValuePriv
  simp [ht]

/-- `setNewFrequencyCounterValue` over an existing array at the key path. -/
theorem setNewFrequencyCounterValue_existing (s : DataStore) (keys : List String)
    (l : List Pt) (value : ℤ) (time : Option ℕ) (skipDup : Bool) (label : Option String)
    (h : getIM s.counters keys = some (.val l)) :
    setNewFrequencyCounterValue s keys value time skipDup label =
      .ok ({ (setNewCounterValuePriv s l value label time skipDup false).1 with
              counters := updateIM
                (setNewCounterValuePriv s l value label time skipDup false).1.counters
                keys (setNewCounterValuePriv s l value label time skipDup false).2.1 },
           (setNewCounterValuePriv s l value label time skipDup false).2.2) := by
  simp only [setNewFrequencyCounterValue, bind, Except.bind, pure, Except.pure, h]

/-- `incrementCounterLast` over a non-empty array at the key path. -/
theorem incrementCounterLast_leaf (s : DataStore) (keys : List String)
    (l : List Pt) (lastP : Pt) (inc : ℤ)
    (h : getIM s.counters keys = some (.val l)) (hl : l.getLast? = some lastP) :
    incrementCounterLast s keys inc =
      .ok ({ s with
              counters := updateIM s.counters keys
                (l.dropLast ++ [{ lastP with y := lastP.y + inc }]) },
           lastP.y + inc + inc) := by
  simp only [incrementCounterLast, h, hl]

theorem getLast?_app_single {α : Type} (l : List α) (x : α) :
    (l ++ [x]).getLast? = some x := by
  simp

theorem dropLast_app_single {α : Type} (l : List α) (x : α) :
    (l ++ [x]).dropLast = l := by
  simp

/-- The shape of the store after `resetFrequencyCounter` on an existing
non-empty counter whose last point carries the positive timestamp `b`:
one zero point re-dated at `b`, then the duplicate zero and the fresh zero
at the (positive) reset time `a`. -/
theorem resetFrequencyCounter_shape (s : DataStore) (keys : List String)
    (p0 : Pt) (ps : List Pt) (b a : ℕ)
    (hc : getIM s.counters keys = some (.val (p0 :: ps)))
    (hx : ((p0 :: ps).getLast (List.cons_ne_nil p0 ps)).x = some b)
    (hb : 0 < b) (ha : 0 < a) :
    ∃ s' : DataStore, resetFrequencyCounter s keys a = .ok s' ∧
      getIM s'.counters keys = some (.val ((p0 :: ps) ++
        [⟨0, some b, none⟩, ⟨0, some a, none⟩, ⟨0, some a, none⟩])) := by
  have hpriv1 := setNewCounterValuePriv_pos_time s (p0 :: ps) 0 none b true hb
  have hlem1 := setNewFrequencyCounterValue_existing s keys (p0 :: ps) 0 (some b) true none hc
  unfold resetFrequencyCounter
  rw [hc]
  simp only [hx, hlem1, hpriv1, if_true, Except.map, bind, Except.bind,
    addTimePoint_counters]
  set list1 : List Pt := (p0 :: ps) ++ [⟨0, some b, none⟩] with hlist1
  have hGet1 : getIM (updateIM s.counters keys list1) keys = some (.val list1) :=
    getIM_updateIM_val keys s.counters (p0 :: ps) list1 hc
  have hlem2 := setNewFrequencyCounterValue_existing
    { (addTimePoint s b).1 with counters := updateIM s.counters keys list1 }
    keys list1 0 (some a) false none (by simpa using hGet1)
  rw [hlem2]
  have hpriv2 := setNewCounterValuePriv_pos_time
    { (addTimePoint s b).1 with counters := updateIM s.counters keys list1 }
    list1 0 none a false ha
  simp only [hpriv2, if_false, Except.map, addTimePoint_counters]
  refine ⟨_, rfl, ?_⟩
  have hy : (list1.getLast?.map Pt.y).getD 0 = 0 := by
    rw [hlist1, getLast?_app_single]; rfl
  rw [hy]
  have := getIM_updateIM_val keys (updateIM s.counters keys list1) list1
    ((list1 ++ [⟨0, some a, none⟩]) ++ [⟨0, some a, none⟩]) (by simpa using hGet1)
  simpa [hlist1] using this

/-- The amended frequency-counter scenario: increments of 1 at the positive
times t = 100, 600, 2100; the third increment sees a gap of 2000 ms since
the series' last point (dated 100). -/
def freqOk : Except String (DataStore × ℤ) := do
  let r1 ← incrementFrequencyCounter DataStore.init ["freq"] (some 100) 1
  let r2 ← incrementFrequencyCounter r1.1 ["freq"] (some 600) 1
  incrementFrequencyCounter r2.1 ["freq"] (some 2100) 1

/-- The claimed frequency-counter scenario taken literally on a fresh
store: increments of 1 at t = 0, 500, 2000. -/
def freqCex : Except String (DataStore × ℤ) := do
  let r1 ← incrementFrequencyCounter DataStore.init ["freq"] (some 0) 1
  let r2 ← incrementFrequencyCounter r1.1 ["freq"] (some 500) 1
  incrementFrequencyCounter r2.1 ["freq"] (some 2000) 1

/-- C3 counterexample — on a fresh store, increments of delta 1 at
t = 0, 500, 2000 do NOT reset: the initial point is stored with the
`undefined` tail of the empty time axis as timestamp (the `+time > 0`
registration guard rejects `t = 0`), every later gap test is a `NaN`
comparison, and the final counter value is 3, not the claimed 1 — and no
zero point at t = 2000 exists. -/
theorem freqCounter_t0_counterexample :
    freqCex.map (fun r => getIM r.1.counters ["freq"]) =
      .ok (some (.val [⟨0, none, none⟩, ⟨3, none, none⟩])) ∧
    freqCex.map (fun r => (getIM r.1.counters ["freq"]).map
        (fun e => match e with
          | .val l => (l.getLast?.map Pt.y).getD 0
          | .map _ => 0)) = .ok (some 3) ∧
    (3 : ℤ) ≠ 1 := by
  exact ⟨by rfl, by rfl, by decide⟩

/-- C3 (amended) — For a frequency counter whose stored last point carries a
positive timestamp `b`, an increment at time `a` with
`a - b > resetFrequencySeconds * 1000` resets the counter before the
increment: the stored array grows by a zero point re-dated at `b`, the
duplicate zero and the fresh zero at `a`, and the increment lands on the
last zero, so the count restarts at `inc`.  (The claim as stated fails only
for a first observation at t = 0 on an empty axis, whose point gets an
undefined timestamp — see the counterexample; with positive times, e.g.
t = 100, 600, 2100, the reset and restart-at-1 behaviour is exactly as
described.) -/
theorem freqCounter_reset_spec_amended (s : DataStore) (keys : List String)
    (p0 : Pt) (ps : List Pt) (b a : ℕ) (inc : ℤ)
    (hc : getIM s.counters keys = some (.val (p0 :: ps)))
    (hx : ((p0 :: ps).getLast (List.cons_ne_nil p0 ps)).x = some b)
    (hb : 0 < b)
    (hgap : ((s.resetFrequencySeconds * 1000 : ℕ) : ℤ) < (a : ℤ) - (b : ℤ)) :
    (incrementFrequencyCounter s keys (some a) inc).map
        (fun r => getIM r.1.counters keys) =
      .ok (some (.val ((p0 :: ps) ++
        [⟨0, some b, none⟩, ⟨0, some a, none⟩, ⟨inc, some a, none⟩]))) ∧
    freqOk.map (fun r => getIM r.1.counters ["freq"]) =
      .ok (some (.val [⟨0, some 100, none⟩, ⟨2, some 100, none⟩,
        ⟨0, some 100, none⟩, ⟨0, some 2100, none⟩, ⟨1, some 2100, none⟩])) := by
  refine ⟨?_, by rfl⟩
  have ha : 0 < a := by omega
  have hgapb : gapExceeds (some a) (some b) (s.resetFrequencySeconds * 1000) = true := by
    simp only [gapExceeds, gt_iff_lt, decide_eq_true_eq]
    omega
  obtain ⟨s', hrun, hget⟩ := resetFrequencyCounter_shape s keys p0 ps b a hc hx hb ha
  have hl : ((p0 :: ps) ++ ([⟨0, some b, none⟩, ⟨0, some a, none⟩,
      ⟨0, some a, none⟩] : List Pt)).getLast? = some ⟨0, some a, none⟩ := by
    have heq : (p0 :: ps) ++ ([⟨0, some b, none⟩, ⟨0, some a, none⟩,
        ⟨0, some a, none⟩] : List Pt) =
        ((p0 :: ps) ++ [⟨0, some b, none⟩, ⟨0, some a, none⟩]) ++ [⟨0, some a, none⟩] := by
      simp
    rw [heq, getLast?_app_single]
  have hlast := incrementCounterLast_leaf s' keys _ _ inc hget hl
  unfold incrementFrequencyCounter
  rw [hc]
  simp only [hx, hgapb, if_true, bind, Except.bind, pure, Except.pure, hrun, hlast,
    Except.map]
  congr 1
  have hdrop : ((p0 :: ps) ++ ([⟨0, some b, none⟩, ⟨0, some a, none⟩,
      ⟨0, some a, none⟩] : List Pt)).dropLast =
      (p0 :: ps) ++ [⟨0, some b, none⟩, ⟨0, some a, none⟩] := by
    have heq : (p0 :: ps) ++ ([⟨0, some b, none⟩, ⟨0, some a, none⟩,
        ⟨0, some a, none⟩] : List Pt) =
        ((p0 :: ps) ++ [⟨0, some b, none⟩, ⟨0, some a, none⟩]) ++ [⟨0, some a, none⟩] := by
      simp
    rw [heq, dropLast_app_single]
  rw [getIM_updateIM_val keys s'.counters _ _ hget]
  rw [hdrop]
  simp

/-- The store reached by frequency increments of 1 at t = 100 and t = 600
on a fresh store (written out; equality with that run is checked in the
witness). -/
def freqW : DataStore :=
  { resetFrequencySeconds := 1, timePoints := [100],
    counters := [("freq", .val [⟨0, some 100, none⟩, ⟨2, some 100, none⟩])],
    vars := [], infiniteMaps := [], numericalCounters := [], minHeaps := [],
    maxHeaps := [], rateCounters := [] }

/-- Witness for C3 at the concrete store `freqW` (frequency counter
`[⟨0,100⟩, ⟨2,100⟩]`), incremented at t = 2100. -/
theorem freqCounter_reset_spec_amended_witness :
    ((incrementFrequencyCounter DataStore.init ["freq"] (some 100) 1).bind
      (fun r => incrementFrequencyCounter r.1 ["freq"] (some 600) 1)).map Prod.fst =
        .ok freqW ∧
    getIM freqW.counters ["freq"] =
      some (.val [⟨0, some 100, none⟩, ⟨2, some 100, none⟩]) ∧
    (incrementFrequencyCounter freqW ["freq"] (some 2100) 1).map
        (fun r => getIM r.1.counters ["freq"]) =
      .ok (some (.val (([⟨0, some 100, none⟩, ⟨2, some 100, none⟩] : List Pt) ++
        [⟨0, some 100, none⟩, ⟨0, some 2100, none⟩, ⟨1, some 2100, none⟩]))) := by
  refine ⟨by rfl, by rfl, ?_⟩
  exact (freqCounter_reset_spec_amended freqW ["freq"] ⟨0, some 100, none⟩
    [⟨2, some 100, none⟩] 100 2100 1 (by rfl) (by rfl) (by decide) (by decide)).1

theorem foldl_min_le_init (xs : List ℤ) : ∀ acc : ℤ, xs.foldl min acc ≤ acc := by
  induction xs with
  | nil => simp
  | cons x xs ih =>
    intro acc
    exact le_trans (ih (min acc x)) (min_le_left acc x)

theorem foldl_min_le_mem (xs : List ℤ) : ∀ (acc a : ℤ), a ∈ xs → xs.foldl min acc ≤ a := by
  induction xs with
  | nil => simp
  | cons x xs ih =>
    intro acc a ha
    rcases List.mem_cons.mp ha with h | h
    · subst h
      exact le_trans (foldl_min_le_init xs (min acc a)) (min_le_right acc a)
    · exact ih (min acc x) a h

theorem foldl_max_ge_init (xs : List ℤ) : ∀ acc : ℤ, acc ≤ xs.foldl max acc := by
  induction xs with
  | nil => simp
  | cons x xs ih =>
    intro acc
    exact le_trans (le_max_left acc x) (ih (max acc x))

theorem foldl_max_ge_mem (xs : List ℤ) : ∀ (acc a : ℤ), a ∈ xs → a ≤ xs.foldl max acc := by
  induction xs with
  | nil => simp
  | cons x xs ih =>
    intro acc a ha
    rcases List.mem_cons.mp ha with h | h
    · subst h
      exact le_trans (le_max_right acc a) (foldl_max_ge_init xs (max acc a))
    · exact ih (max acc x) a h

theorem listMin?_le_mem (l : List ℤ) (m : ℤ) (hm : listMin? l = some m) :
    ∀ a ∈ l, m ≤ a := by
  cases l with
  | nil => simp [listMin?] at hm
  | cons x xs =>
    simp only [listMin?, Option.some.injEq] at hm
    subst hm
    intro a ha
    rcases List.mem_cons.mp ha with h | h
    · subst h; exact foldl_min_le_init xs a
    · exact foldl_min_le_mem xs x a h

theorem listMax?_ge_mem (l : List ℤ) (m : ℤ) (hm : listMax? l = some m) :
    ∀ a ∈ l, a ≤ m := by
  cases l with
  | nil => simp [listMax?] at hm
  | cons x xs =>
    simp only [listMax?, Option.some.injEq] at hm
    subst hm
    intro a ha
    rcases List.mem_cons.mp ha with h | h
    · subst h; exact foldl_max_ge_init xs a
    · exact foldl_max_ge_mem xs x a h

theorem listMin?_append_single (l : List ℤ) (v : ℤ) :
    listMin? (l ++ [v]) =
      some (match listMin? l with | none => v | some m => min m v) := by
  cases l with
  | nil => simp [listMin?]
  | cons x xs => simp [listMin?, List.foldl_append]

theorem listMax?_append_single (l : List ℤ) (v : ℤ) :
    listMax? (l ++ [v]) =
      some (match listMax? l with | none => v | some m => max m v) := by
  cases l with
  | nil => simp [listMax?]
  | cons x xs => simp [listMax?, List.foldl_append]

theorem getLast?_mem_self {α : Type} (l : List α) (x : α) (h : l.getLast? = some x) :
    x ∈ l := by
  induction l with
  | nil => simp at h
  | cons a as ih =>
    cases as with
    | nil =>
      simp only [List.getLast?_singleton, Option.some.injEq] at h
      simp [h]
    | cons b bs =>
      rw [List.getLast?_cons_cons] at h
      exact List.mem_cons_of_mem a (ih h)

/-- The running invariant tying the two heaps of a numeric key, its stored
values, and the history of appended values: both heaps hold exactly the
stored values, and their extrema agree with the extrema of the whole
history. -/
def numHeapInv (s : DataStore) (key : String) (vals : List ℤ) : Prop :=
  ∃ (hv : List ℤ) (nc : NumCounter),
    alistGet s.minHeaps key = some hv ∧ alistGet s.maxHeaps key = some hv ∧
    alistGet s.numericalCounters key = some nc ∧ nc.data.map Prod.snd = hv ∧
    hv ≠ [] ∧ listMin? hv = listMin? vals ∧ listMax? hv = listMax? vals

/-- A batch of numeric appends `(value, time, dedupe)` to one key, each via
`setValue` on the numeric route. -/
def applyNumOps (s : DataStore) (key : String) (ops : List (ℤ × Option ℕ × Bool)) :
    DataStore :=
  ops.foldl (fun s op => (setNewCounterValue s key op.1 none op.2.1 true op.2.2).1) s

theorem numHeapInv_step (s : DataStore) (key : String) (vals : List ℤ)
    (v : ℤ) (t : Option ℕ) (d : Bool) (h : numHeapInv s key vals) :
    numHeapInv ((setNewCounterValue s key v none t true d).1) key (vals ++ [v]) := by
  obtain ⟨hv, nc, h1, h2, h3, h4, h5, h6, h7⟩ := h
  have hvals_min : ∃ m, listMin? vals = some m := by
    cases hvq : listMin? hv with
    | none => cases hv with
      | nil => exact absurd rfl h5
      | cons a as => simp [listMin?] at hvq
    | some m => exact ⟨m, by rw [← h6, hvq]⟩
  have hvals_max : ∃ m, listMax? vals = some m := by
    cases hvq : listMax? hv with
    | none => cases hv with
      | nil => exact absurd rfl h5
      | cons a as => simp [listMax?] at hvq
    | some m => exact ⟨m, by rw [← h7, hvq]⟩
  obtain ⟨m, hm⟩ := hvals_min
  obtain ⟨M, hM⟩ := hvals_max
  simp only [setNewCounterValue, setOptimizedCounterValue, h3, Option.isNone_some,
    Bool.false_eq_true, if_false, Option.getD_some]
  by_cases hdup : d = true ∧ nc.data ≠ [] ∧ (nc.data.getLast?.map Prod.snd) = some v
  · rw [if_pos hdup]
    have hvmem : v ∈ hv := by
      obtain ⟨-, -, hlastv⟩ := hdup
      cases hq : nc.data.getLast? with
      | none => rw [hq] at hlastv; simp at hlastv
      | some p =>
        rw [hq] at hlastv
        simp at hlastv
        have : p ∈ nc.data := getLast?_mem_self nc.data p hq
        rw [← h4, ← hlastv]
        exact List.mem_map_of_mem Prod.snd this
    have hmle : m ≤ v := listMin?_le_mem hv m (h6 ▸ hm) v hvmem
    have hMge : v ≤ M := listMax?_ge_mem hv M (h7 ▸ hM) v hvmem
    refine ⟨hv, nc, h1, h2, h3, h4, h5, ?_, ?_⟩
    · rw [h6, listMin?_append_single, hm]
      simp [min_eq_left hmle]
    · rw [h7, listMax?_append_single, hM]
      simp [max_eq_left hMge]
  · rw [if_neg hdup]
    refine ⟨hv ++ [v], ⟨nc.data ++ [(jsTimeValue s t, v)]⟩, ?_, ?_, ?_, ?_, ?_, ?_, ?_⟩
    · rw [h1]; simpa using alistGet_alistSet_self s.minHeaps key (hv ++ [v])
    · rw [h2]; simpa using alistGet_alistSet_self s.maxHeaps key (hv ++ [v])
    · exact alistGet_alistSet_self _ _ _
    · simp [h4]
    · simp
    · rw [listMin?_append_single, listMin?_append_single, h6]
    · rw [listMax?_append_single, listMax?_append_single, h7]

theorem numHeapInv_create (s : DataStore) (key : String) (v : ℤ) (t : Option ℕ)
    (d : Bool) (h1 : alistGet s.numericalCounters key = none) :
    numHeapInv ((setNewCounterValue s key v none t true d).1) key [v] := by
  simp only [setNewCounterValue, setOptimizedCounterValue, h1, Option.isNone_none,
    if_true, alistGet_alistSet_self, Option.getD_some]
  rw [if_neg (by simp)]
  refine ⟨[v], ⟨[(jsTimeValue { s with
      numericalCounters := alistSet s.numericalCounters key ⟨[]⟩,
      minHeaps := alistSet s.minHeaps key [],
      maxHeaps := alistSet s.maxHeaps key [] } t, v)]⟩,
    ?_, ?_, ?_, ?_, ?_, ?_, ?_⟩ <;>
    simp [alistGet_alistSet_self]

theorem numHeapInv_fold (key : String) (ops : List (ℤ × Option ℕ × Bool)) :
    ∀ (s : DataStore) (vals : List ℤ), numHeapInv s key vals →
      numHeapInv (applyNumOps s key ops) key (vals ++ ops.map (fun o => o.1)) := by
  induction ops with
  | nil => intro s vals h; simpa [applyNumOps] using h
  | cons op rest ih =>
    intro s vals h
    have hstep := numHeapInv_step s key vals op.1 op.2.1 op.2.2 h
    have := ih ((setNewCounterValue s key op.1 none op.2.1 true op.2.2).1)
      (vals ++ [op.1]) hstep
    simpa [applyNumOps, List.append_assoc] using this

/-- C4 — For a key with no numeric series, `getMinValue`/`getMaxValue` are
undefined; after any non-empty batch of numeric appends to that key (with
arbitrary times and dedupe flags), they equal the true minimum and maximum
of all values appended since creation.  Quantifying over every batch covers
every point of the sequence. -/
theorem minmax_history_spec (s : DataStore) (key : String)
    (h1 : alistGet s.numericalCounters key = none)
    (h2 : alistGet s.minHeaps key = none)
    (h3 : alistGet s.maxHeaps key = none)
    (v : ℤ) (t : Option ℕ) (d : Bool) (ops : List (ℤ × Option ℕ × Bool)) :
    (getMinValue s key = none ∧ getMaxValue s key = none) ∧
    getMinValue (applyNumOps s key ((v, t, d) :: ops)) key =
      listMin? (v :: ops.map (fun o => o.1)) ∧
    getMaxValue (applyNumOps s key ((v, t, d) :: ops)) key =
      listMax? (v :: ops.map (fun o => o.1)) := by
  refine ⟨⟨by simp [getMinValue, h2], by simp [getMaxValue, h3]⟩, ?_, ?_⟩ <;>
  · have hfold := numHeapInv_fold key ops
      ((setNewCounterValue s key v none t true d).1) [v]
      (numHeapInv_create s key v t d h1)
    obtain ⟨hv, nc, i1, i2, i3, i4, i5, i6, i7⟩ := hfold
    have happ : applyNumOps s key ((v, t, d) :: ops) =
        applyNumOps ((setNewCounterValue s key v none t true d).1) key ops := rfl
    simp only [happ, getMinValue, getMaxValue, i1, i2, Option.bind_some]
    simpa using (by assumption : _ = _)

/-- Witness for C4 with the batch `5, 2, 7` (the last append deduped
against 7, i.e. not suppressed) on a fresh store. -/
theorem minmax_history_spec_witness :
    (alistGet DataStore.init.numericalCounters "m" = none ∧
      alistGet DataStore.init.minHeaps "m" = none ∧
      alistGet DataStore.init.maxHeaps "m" = none) ∧
    (getMinValue DataStore.init "m" = none ∧ getMaxValue DataStore.init "m" = none) ∧
    getMinValue (applyNumOps DataStore.init "m"
      [(5, none, false), (2, none, false), (7, none, true)]) "m" =
        listMin? [5, 2, 7] ∧
    getMaxValue (applyNumOps DataStore.init "m"
      [(5, none, false), (2, none, false), (7, none, true)]) "m" =
        listMax? [5, 2, 7] ∧
    listMin? [5, 2, 7] = some 2 ∧ listMax? [5, 2, 7] = some 7 := by
  have h := minmax_history_spec DataStore.init "m" (by rfl) (by rfl) (by rfl)
    5 none false [(2, none, false), (7, none, true)]
  exact ⟨⟨rfl, rfl, rfl⟩, h.1, h.2.1, h.2.2, by decide, by decide⟩

theorem statsComparer_lookup (reference : List (String × ℚ)) :
    ∀ (candidate : List (String × ℚ)) (k : String) (rv : ℚ),
      alistGet reference k = some rv →
      alistGet (StatsComparer reference candidate) k =
        some (match alistGet candidate k with
          | none => none
          | some cv => if cv = 0 then none
            else some ⟨cv - rv, (cv - rv) * 100 / rv⟩) := by
  induction reference with
  | nil => intro candidate k rv h; simp [alistGet] at h
  | cons e rest ih =>
    intro candidate k rv h
    obtain ⟨k0, rv0⟩ := e
    by_cases hk : k0 = k
    · subst hk
      have hrv : rv0 = rv := by simpa [alistGet] using h
      subst hrv
      cases hc : alistGet candidate k0 with
      | none => simp [StatsComparer, alistGet, hc]
      | some cv =>
        by_cases hcv : cv = 0
        · simp [StatsComparer, alistGet, hc, hcv]
        · simp [StatsComparer, alistGet, hc, hcv]
    · have h' : alistGet rest k = some rv := by simpa [alistGet, hk] using h
      have hres := ih candidate k rv h'
      cases hc : alistGet candidate k0 with
      | none => simpa [StatsComparer, alistGet, hc, hk] using hres
      | some cv =>
        by_cases hcv : cv = 0
        · simpa [StatsComparer, alistGet, hc, hcv, hk] using hres
        · simpa [StatsComparer, alistGet, hc, hcv, hk] using hres

/-- C5 counterexample — a key present in the candidate with value `0` is
reported as `null` (the JavaScript test `!candValue` is a falsiness test,
not a presence test), where the claim requires the variation object
`{variation: -10, variationPerc: -100}`. -/
theorem statsComparer_zero_counterexample :
    StatsComparer [("a", 10)] [("a", 0)] = [("a", none)] ∧
    (none : Option VariationResult) ≠
      some ⟨0 - 10, (0 - 10) * 100 / 10⟩ := by
  constructor
  · norm_num [StatsComparer, alistGet]
  · simp

/-- C5 (amended) — For every key `k` of `reference`: if `candidate[k]` is
absent or equal to `0` (both falsy in JavaScript), the result maps `k` to
`null`; otherwise to `{variation = candidate[k] - reference[k],
variationPerc = variation * 100 / reference[k]}`.  The claim's two concrete
examples hold as stated. -/
theorem statsComparer_spec_amended (reference candidate : List (String × ℚ))
    (k : String) (rv : ℚ) (h : alistGet reference k = some rv) :
    alistGet (StatsComparer reference candidate) k =
      some (match alistGet candidate k with
        | none => none
        | some cv => if cv = 0 then none
          else some ⟨cv - rv, (cv - rv) * 100 / rv⟩) ∧
    StatsComparer [("a", 10)] [("a", 15)] = [("a", some ⟨5, 50⟩)] ∧
    StatsComparer [("a", 10)] [] = [("a", none)] := by
  refine ⟨statsComparer_lookup reference candidate k rv h, ?_, ?_⟩
  · norm_num [StatsComparer, alistGet]
  · norm_num [StatsComparer, alistGet]

/-- Witness for C5 at `reference = {"a": 10}`, `candidate = {"a": 15}`. -/
theorem statsComparer_spec_amended_witness :
    alistGet [("a", (10 : ℚ))] "a" = some 10 ∧
    alistGet (StatsComparer [("a", 10)] [("a", 15)]) "a" = some (some ⟨5, 50⟩) := by
  have h := (statsComparer_spec_amended [("a", 10)] [("a", 15)] "a" 10 (by rfl)).1
  refine ⟨by rfl, ?_⟩
  rw [h]
  norm_num [alistGet]

/-- The C6 claim run concretely: two plain increments of an absent key. -/
def c6s1 : DataStore := (incrementCounter DataStore.init "k" 5 (some 10)).1

def c6s2 : DataStore := (incrementCounter c6s1 "k" 3 (some 20)).1

/-- C6 counterexample — after `increment("k", 5)`, the value 5 sits in the
NumericSeries storage; the claim says the next `increment("k", 3)` reads it
and stores `5 + 3 = 8`, but the code reads only the `counters` array
storage (absent, hence 0) and stores 3. -/
theorem incrementCounter_numeric_read_counterexample :
    (alistGet c6s2.numericalCounters "k").map NumCounter.data =
      some [(some 10, 5), (some 20, 3)] ∧
    (3 : ℤ) ≠ 5 + 3 := by
  exact ⟨by decide, by decide⟩

/-- C6 (amended) — `increment(key, delta, time?)` reads its base value only
from the `counters` (LabeledSeries) array storage — 0 when that storage has
no array for the key, even if the NumericSeries storage holds values — and
writes `base + delta` through `setValue` with no label, which appends to
the NumericSeries storage; an absent key is lazily created with implicit
base 0 rather than failing. -/
theorem incrementCounter_spec_amended (s : DataStore) (key : String) (inc : ℤ)
    (t : Option ℕ) :
    (∀ nc, alistGet s.numericalCounters key = some nc →
      alistGet s.counters key = none →
      alistGet ((incrementCounter s key inc t).1).numericalCounters key =
        some ⟨nc.data ++ [(jsTimeValue s t, 0 + inc)]⟩) ∧
    (∀ ps nc, alistGet s.counters key = some (.val ps) →
      alistGet s.numericalCounters key = some nc →
      alistGet ((incrementCounter s key inc t).1).numericalCounters key =
        some ⟨nc.data ++ [(jsTimeValue s t, ((ps.getLast?.map Pt.y).getD 0) + inc)]⟩) ∧
    (alistGet s.counters key = none → alistGet s.numericalCounters key = none →
      alistGet ((incrementCounter s key inc t).1).numericalCounters key =
        some ⟨[(jsTimeValue s t, 0 + inc)]⟩) := by
  refine ⟨?_, ?_, ?_⟩
  · intro nc hnc hctr
    simp only [incrementCounter, lastCountersY, hctr, setNewCounterValue,
      setOptimizedCounterValue, hnc, Option.isNone_some, Bool.false_eq_true,
      if_false, Option.getD_some]
    rw [if_neg (by simp)]
    exact alistGet_alistSet_self _ _ _
  · intro ps nc hctr hnc
    simp only [incrementCounter, lastCountersY, hctr, setNewCounterValue,
      setOptimizedCounterValue, hnc, Option.isNone_some, Bool.false_eq_true,
      if_false, Option.getD_some]
    rw [if_neg (by simp)]
    exact alistGet_alistSet_self _ _ _
  · intro hctr hnum
    simp only [incrementCounter, lastCountersY, hctr, setNewCounterValue,
      setOptimizedCounterValue, hnum, Option.isNone_none, if_true,
      alistGet_alistSet_self, Option.getD_some]
    rw [if_neg (by simp)]
    simpa using alistGet_alistSet_self _ key
      (NumCounter.mk ([] ++ [(jsTimeValue s t, 0 + inc)]))

/-- Witness for C6: the amended read/write rule applied at the concrete
store `c6s1` (5 already stored numerically at key `"k"`, no array storage),
incremented by 3 at t = 20. -/
theorem incrementCounter_spec_amended_witness :
    alistGet c6s1.numericalCounters "k" = some ⟨[(some 10, 5)]⟩ ∧
    alistGet c6s1.counters "k" = none ∧
    alistGet ((incrementCounter c6s1 "k" 3 (some 20)).1).numericalCounters "k" =
      some ⟨[(some 10, 5)] ++ [(jsTimeValue c6s1 (some 20), 0 + 3)]⟩ := by
  refine ⟨by rfl, by rfl, ?_⟩
  exact (incrementCounter_spec_amended c6s1 "k" 3 (some 20)).1
    ⟨[(some 10, 5)]⟩ (by rfl) (by rfl)

/-- `addTimePoint` only looks at and updates `timePoints`. -/
theorem addTimePoint_timePoints_congr (s₁ s₂ : DataStore) (t : ℕ)
    (h : s₁.timePoints = s₂.timePoints) :
    ((addTimePoint s₁ t).1).timePoints = ((addTimePoint s₂ t).1).timePoints := by
  unfold addTimePoint
  rw [h]
  split <;> simp [h]

/-- C7 counterexample — a `setValue` on the numeric route with the provided
positive time 100 stores the point but registers nothing on the TimeAxis:
the axis of a fresh store stays empty, while the claim requires 100 to have
been registered through `addTimePoint`. -/
theorem numericRoute_time_axis_counterexample :
    ((setNewCounterValue DataStore.init "k" 5 none (some 100) true false).1).timePoints
      = [] ∧
    (100 : ℕ) ∉
      ((setNewCounterValue DataStore.init "k" 5 none (some 100) true false).1).timePoints ∧
    (alistGet ((setNewCounterValue DataStore.init "k" 5 none
      (some 100) true false).1).numericalCounters "k").map NumCounter.data =
        some [(some 100, 5)] := by
  exact ⟨by decide, by decide, by decide⟩

/-- C7 (amended) — Only the labeled route registers a provided positive
`time` on the TimeAxis via `addTimePoint` before storing (and stores that
time as the point's x); the numeric route uses a provided time directly as
the stored x and never touches the axis; with no time provided, both
routes stamp the point with the axis's current last timestamp. -/
theorem setValue_time_spec_amended (s : DataStore) (key : String) (v : ℤ)
    (lab : String) (t : ℕ) (sd dd : Bool) :
    (0 < t →
      ((setNewCounterValue s key v (some lab) (some t) sd dd).1).timePoints =
        ((addTimePoint s t).1).timePoints ∧
      ((setNewCounterValue s key v (some lab) (some t) sd dd).2).x = some t) ∧
    (((setNewCounterValue s key v none (some t) sd dd).1).timePoints = s.timePoints ∧
      ((setNewCounterValue s key v none (some t) sd dd).2).x = some t) ∧
    (((setNewCounterValue s key v none none sd dd).2).x = getLastTimePoint s ∧
      ((setNewCounterValue s key v (some lab) none sd dd).2).x = getLastTimePoint s) := by
  refine ⟨?_, ⟨?_, ?_⟩, ⟨?_, ?_⟩⟩
  · intro ht
    constructor
    · simp only [setNewCounterValue, setNewCounterValuePriv, ht, if_true]
      split <;>
        exact addTimePoint_timePoints_congr _ _ t rfl
    · simp only [setNewCounterValue, setNewCounterValuePriv, ht, if_true]
      split <;> simp
  · simp only [setNewCounterValue, setOptimizedCounterValue]
    split <;> split <;> rfl
  · simp only [setNewCounterValue, setOptimizedCounterValue, jsTimeValue]
    split <;> split <;> rfl
  · simp only [setNewCounterValue, setOptimizedCounterValue, jsTimeValue,
      getLastTimePoint]
    split <;> split <;> rfl
  · simp only [setNewCounterValue, setNewCounterValuePriv]
    split <;> simp [getLastTimePoint]

/-- Witness for C7: the labeled-route rule at t = 42 on a fresh store. -/
theorem setValue_time_spec_amended_witness :
    (0 : ℕ) < 42 ∧
    ((setNewCounterValue DataStore.init "k" 5 (some "L") (some 42) true false).1).timePoints
      = ((addTimePoint DataStore.init 42).1).timePoints ∧
    ((setNewCounterValue DataStore.init "k" 5 (some "L") (some 42) true false).2).x
      = some 42 ∧
    ((setNewCounterValue DataStore.init "k" 7 none (some 42) true false).1).timePoints
      = DataStore.init.timePoints := by
  have h := setValue_time_spec_amended DataStore.init "k" 5 "L" 42 true false
  have h2 := setValue_time_spec_amended DataStore.init "k" 7 "L" 42 true false
  exact ⟨by decide, (h.1 (by decide)).1, (h.1 (by decide)).2, h2.2.1.1⟩

/-- The store holding one numeric point `(x = 5, y = 7)` at key `"k"`. -/
def c8s : DataStore := (setNewCounterValue DataStore.init "k" 7 none (some 5) true false).1

/-- C8 counterexample — a deduped `setValue` whose value 7 equals the last
stored value suppresses the append and leaves the store untouched, but it
returns the point `(x = 9, y = 7)` carrying the *incoming* timestamp, not
the stored last point `(x = 5, y = 7)` that the claim promises. -/
theorem dedupe_return_counterexample :
    setNewCounterValue c8s "k" 7 none (some 9) true true = (c8s, ⟨7, some 9, none⟩) ∧
    (getCounterData c8s "k").getLast? = some ⟨7, some 5, none⟩ ∧
    (⟨7, some 9, none⟩ : Pt) ≠ ⟨7, some 5, none⟩ := by
  exact ⟨by rfl, by rfl, by decide⟩

/-- C8 (amended) — On a numeric key whose last stored value equals `value`,
a `setValue` with `dedupe = true` suppresses the append and leaves the
whole store state unchanged (buffer capacity aside, which is
unobservable), returning a point whose y is the duplicate value and whose
x is the *incoming* timestamp (the provided time, or the axis tail) — not
necessarily the stored last point's time. -/
theorem dedupe_skip_spec_amended (s : DataStore) (key : String) (nc : NumCounter)
    (v : ℤ) (t : Option ℕ)
    (h1 : alistGet s.numericalCounters key = some nc)
    (h2 : nc.data.getLast?.map Prod.snd = some v) :
    setNewCounterValue s key v none t true true = (s, ⟨v, jsTimeValue s t, none⟩) := by
  have hne : nc.data ≠ [] := by
    intro hnil
    rw [hnil] at h2
    simp at h2
  simp only [setNewCounterValue, setOptimizedCounterValue, h1, Option.isNone_some,
    Bool.false_eq_true, if_false, Option.getD_some]
  rw [if_pos ⟨trivial, hne, h2⟩]

/-- Witness for C8 at the concrete store `c8s` with incoming time 9. -/
theorem dedupe_skip_spec_amended_witness :
    alistGet c8s.numericalCounters "k" = some ⟨[(some 5, 7)]⟩ ∧
    (NumCounter.mk [(some 5, 7)]).data.getLast?.map Prod.snd = some 7 ∧
    setNewCounterValue c8s "k" 7 none (some 9) true true =
      (c8s, ⟨7, jsTimeValue c8s (some 9), none⟩) := by
  exact ⟨by rfl, by rfl,
    dedupe_skip_spec_amended c8s "k" ⟨[(some 5, 7)]⟩ 7 (some 9) (by rfl) (by rfl)⟩

/-- The key path of a composite write does not descend through a key that
is already bound to a terminal value (the only way `#setInfiniteMapValue`
can throw a `TypeError`). -/
def pathClear {α : Type} : List (String × IEntry α) → List String → Bool
  | _, [] => true
  | _, [_] => true
  | m, k :: k' :: rest =>
    match alistGet m k with
    | none => true
    | some (.map sub) => pathClear sub (k' :: rest)
    | some (.val _) => false

theorem pathClear_nil {α : Type} (keys : List String) :
    pathClear ([] : List (String × IEntry α)) keys = true := by
  rcases keys with _ | ⟨a, _ | ⟨b, rest⟩⟩ <;> simp [pathClear, alistGet]

theorem setIM_ok {α : Type} (keys : List String) :
    ∀ (m : List (String × IEntry α)) (v : α), keys ≠ [] →
      pathClear m keys = true →
      ∃ m', setIM m keys v = .ok m' ∧ getIM m' keys = some (.val v) ∧
        ∀ k', (alistGet m k').isSome → (alistGet m' k').isSome := by
  induction keys with
  | nil => intro m v hne _; exact absurd rfl hne
  | cons k rest ih =>
    intro m v _ hclear
    cases rest with
    | nil =>
      refine ⟨alistSet m k (.val v), rfl, ?_, ?_⟩
      · rw [getIM, alistGet_alistSet_self]
      · intro k' hk'
        exact alistGet_isSome_alistSet m k k' (.val v) hk'
    | cons k' rest' =>
      rw [pathClear] at hclear
      cases hg : alistGet m k with
      | none =>
        rw [hg] at hclear
        obtain ⟨m'', hok, hget, _⟩ :=
          ih ([] : List (String × IEntry α)) v (by simp) (pathClear_nil _)
        refine ⟨alistSet m k (.map m''), ?_, ?_, ?_⟩
        · rw [setIM, hg, hok]; rfl
        · rw [getIM, alistGet_alistSet_self]
          exact hget
        · intro q hq
          exact alistGet_isSome_alistSet m k q (.map m'') hq
      | some e =>
        rw [hg] at hclear
        cases e with
        | val w => simp at hclear
        | map sub =>
          simp only at hclear
          obtain ⟨sub', hok, hget, _⟩ := ih sub v (by simp) hclear
          refine ⟨alistSet m k (.map sub'), ?_, ?_, ?_⟩
          · rw [setIM, hg]
            simp only [hok, Except.map]
          · rw [getIM, alistGet_alistSet_self]
            exact hget
          · intro q hq
            exact alistGet_isSome_alistSet m k q (.map sub') hq

/-- The store reached by the composite write `["a"] ↦ 1`. -/
def c9s : DataStore :=
  ((setInfiniteMapValue DataStore.init ["a"] 1).toOption).getD DataStore.init

/-- C9 counterexample — after the (successful, ≥ 2 components) write
`set("a", 1)`, the ≥ 2-components write `set("a", "b", 2)` does not
succeed: descending through `"a"`, which holds a terminal value and not a
nested `Map`, throws a `TypeError`. -/
theorem infiniteMap_clash_counterexample :
    setInfiniteMapValue DataStore.init ["a"] 1 = .ok c9s ∧
    setInfiniteMapValue c9s ["a", "b"] 2 = .error "TypeError: step is not a Map" := by
  exact ⟨by rfl, by rfl⟩

/-- C9 (amended) — A composite write with fewer than two components (no key
before the value) throws the arity error immediately, before any mutation;
a write with at least two components succeeds *provided* its key path does
not descend through a key already bound to a terminal value, lazily
creating missing intermediate levels: afterwards the value is readable at
the full path, and no existing top-level key is ever pruned.  (Descending
through a terminal value throws a `TypeError` — see the counterexample.) -/
theorem infiniteMap_write_spec_amended (s : DataStore) (keys : List String) (v : ℤ) :
    (keys = [] → setInfiniteMapValue s keys v =
      .error "Cannot create an infinite map with less than 2 parameters") ∧
    (keys ≠ [] → pathClear s.infiniteMaps keys = true →
      ∃ s', setInfiniteMapValue s keys v = .ok s' ∧
        getInfiniteMapValue s' keys = some (.val v) ∧
        ∀ k', (alistGet s.infiniteMaps k').isSome →
          (alistGet s'.infiniteMaps k').isSome) := by
  constructor
  · intro hnil
    subst hnil
    rfl
  · intro hne hclear
    obtain ⟨m', hok, hget, hdom⟩ := setIM_ok keys s.infiniteMaps v hne hclear
    refine ⟨{ s with infiniteMaps := m' }, ?_, hget, hdom⟩
    unfold setInfiniteMapValue
    rw [hok]
    rfl

/-- Witness for C9: the two-component write `["x", "y"] ↦ 7` on a fresh
store, and the arity failure of the empty write. -/
theorem infiniteMap_write_spec_amended_witness :
    (([] : List String) = [] →
      setInfiniteMapValue DataStore.init [] 7 =
        .error "Cannot create an infinite map with less than 2 parameters") ∧
    ((["x", "y"] : List String) ≠ [] ∧
      pathClear DataStore.init.infiniteMaps ["x", "y"] = true ∧
      ∃ s', setInfiniteMapValue DataStore.init ["x", "y"] 7 = .ok s' ∧
        getInfiniteMapValue s' ["x", "y"] = some (.val 7) ∧
        ∀ k', (alistGet DataStore.init.infiniteMaps k').isSome →
          (alistGet s'.infiniteMaps k').isSome) := by
  refine ⟨(infiniteMap_write_spec_amended DataStore.init [] 7).1, by decide, by rfl, ?_⟩
  exact (infiniteMap_write_spec_amended DataStore.init ["x", "y"] 7).2
    (by decide) (by rfl)

/-- C10 — Every read query returns the store unchanged: the trailing
in-progress rate point and the extension point are pushed onto copies,
never onto the stored committed arrays.  Under the mid-bucket (resp.
extendable) hypotheses, the returned list is the stored committed data
plus exactly one trailing point while the stored counter is still exactly
as before. -/
theorem read_queries_pure_spec (s : DataStore) (key : String) (maxTime : ℕ) :
    ((getCounterDataS s key).2 = s ∧
      (getRateCounterDataS s key).2 = s ∧
      (getCounterDataExtendedS s key maxTime).2 = s ∧
      (getCounterYValuesS s key).2 = s ∧
      (getMinValueS s key).2 = s ∧
      (getMaxValueS s key).2 = s ∧
      (getAverageValueS s key).2 = s) ∧
    (∀ c, alistGet s.rateCounters key = some c →
      alistGet ((getRateCounterDataS s key).2).rateCounters key = some c ∧
      (0 < c.currentCount → 0 ≤ c.lastSecond →
        (getRateCounterDataS s key).1 =
          c.data.map (fun q => (⟨q.2, some q.1, none⟩ : Pt)) ++
            [⟨c.currentCount, getLastTimePoint s, none⟩])) ∧
    (∀ p, (getCounterData s key).getLast? = some p →
      ∀ x0, p.x = some x0 → x0 < maxTime →
        (getCounterDataExtendedS s key maxTime).1 =
          getCounterData s key ++ [⟨p.y, some maxTime, none⟩]) := by
  refine ⟨⟨rfl, rfl, rfl, rfl, rfl, rfl, rfl⟩, ?_, ?_⟩
  · intro c hc
    refine ⟨hc, ?_⟩
    intro hcount hsec
    simp only [getRateCounterDataS, getRateCounterData, hc]
    rw [if_pos ⟨hcount, hsec⟩]
  · intro p hp x0 hx0 hlt
    simp only [getCounterDataExtendedS, getCounterDataExtended, hp]
    rw [if_pos]
    simp only [xBefore, hx0, decide_eq_true_eq]
    exact hlt

/-- Witness for C10 at the concrete mid-bucket store `rateS4` (committed
`[(900, 3)]`, in-progress count 1) with extension end time 5000. -/
theorem read_queries_pure_spec_witness :
    ((getRateCounterDataS rateS4 "TPS").2 = rateS4 ∧
      alistGet rateS4.rateCounters "TPS" = some ⟨1, 1, 1100, [(900, 3)]⟩) ∧
    (getRateCounterDataS rateS4 "TPS").1 =
      ([(900, 3)] : List (ℕ × ℤ)).map (fun q => (⟨q.2, some q.1, none⟩ : Pt)) ++
        [⟨1, getLastTimePoint rateS4, none⟩] ∧
    (getCounterDataExtendedS rateS4 "TPS" 5000).1 =
      getCounterData rateS4 "TPS" ++ [⟨1, some 5000, none⟩] := by
  have h := read_queries_pure_spec rateS4 "TPS" 5000
  refine ⟨⟨h.1.2.1, by decide⟩, ?_, ?_⟩
  · exact (h.2.1 ⟨1, 1, 1100, [(900, 3)]⟩ (by decide)).2 (by decide) (by decide)
  · exact h.2.2 ⟨1, some 1100, none⟩ (by decide) 1100 (by decide) (by decide)

end SquadCsv
